import Mathlib

/-!
Shallow embedding of `yt_auto_download.py` (repository
`ytarchive-automation`), the per-URL capture / upload / retention
orchestration script, together with proofs about its behaviour.

Strings from the script are modelled as `List Char` (`Name`), the output
directory as a list of files in directory-listing (`iterdir`) order, and
the effectful helpers of the script as pure functions from directory
states to directory states.  External outcomes (whether a capture tool
produced a file, how many upload attempts fail, the wall-clock timestamps
taken by the script) are inputs of the model, since they are decided by
the environment, not by the code.
-/

namespace YtAuto

/-- Filenames, URLs, command lines and log lines are lists of characters. -/
abbrev Name := List Char

/-- One regular file directly under the output directory.  `mtime` is the
modification time as reported by `stat`, `locked` marks a file whose
`unlink`/`remove` raises an `OSError` (permission error, vanished file);
the script catches those exceptions per file. -/
structure FsFile where
  name : Name
  mtime : Nat
  locked : Bool
deriving Repr, DecidableEq

/-- The output directory: its regular files in directory-listing order
(the order `Path.iterdir` yields them, which is arbitrary and in
particular not sorted by name). -/
abbrev Dir := List FsFile

/-! ## Filename sanitisation (`record_with_ytarchive` / `record_with_ytdlp`)

The script computes
`safe_name = url.replace("https://", "").replace("/", "_").replace(":", "_")`.
`str.replace` scans left to right and replaces non-overlapping
occurrences; for the single-character patterns it is a character map. -/

/-- Whether `pat` is an initial segment of `s` (used to detect status
filenames the way the status-name prefix does). -/
def hasPfx : Name → Name → Bool
  | [], _ => true
  | _ :: _, [] => false
  | c :: p, d :: s => c == d && hasPfx p s

/-- Left-to-right removal of the non-overlapping occurrences of
`"https://"`, as `url.replace("https://", "")` does: wherever the next
eight characters spell the pattern they are dropped and scanning
resumes after them, otherwise one character is kept. -/
def stripHttps : Name → Name
  | 'h' :: 't' :: 't' :: 'p' :: 's' :: ':' :: '/' :: '/' :: rest => stripHttps rest
  | c :: cs => c :: stripHttps cs
  | [] => []

/-- The second step, `.replace("/", "_")`. -/
def replSlash (s : Name) : Name := s.map fun c => if c = '/' then '_' else c

/-- The third step, `.replace(":", "_")`. -/
def replColon (s : Name) : Name := s.map fun c => if c = ':' then '_' else c

/-- `safe_name` as computed by both capture helpers. -/
def safe_name (url : Name) : Name := replColon (replSlash (stripHttps url))

/-- The artifact filename `f"{safe_name}_{timestamp}.mkv"` used by
`record_with_ytarchive` (the glob it recovers the file with matches
this name). -/
def ytarchiveFileName (url ts : Name) : Name :=
  safe_name url ++ '_' :: (ts ++ ".mkv".data)

/-- The artifact filename `f"{safe_name}_{timestamp}.mp4"` used by
`record_with_ytdlp`. -/
def ytdlpFileName (url ts : Name) : Name :=
  safe_name url ++ '_' :: (ts ++ ".mp4".data)

/-! ## Retention sweep (`cleanup_keep_last`)

`cleanup_keep_last` lists the regular files of the output directory,
sorts them by `st_mtime` descending (Python's `sorted` is stable, also
with `reverse=True`, so files with equal `mtime` keep their listing
order — the key is the `mtime` alone, nothing else), and unlinks every
file past index `keep_n`, catching and logging per-file failures. -/

/-- The sort performed by
`sorted(files, key=lambda p: p.stat().st_mtime, reverse=True)`:
a stable sort whose only key is the modification time, descending.
`insertionSort` with this total preorder is stable, so it agrees with
Python's stable sort. -/
def sortByMtimeDesc (files : Dir) : Dir :=
  List.insertionSort (fun f g => g.mtime ≤ f.mtime) files

/-- The log line `cleanup_keep_last` emits for one file of `files[keep_n:]`:
either the success or the caught-exception message. -/
def cleanupLogLine (f : FsFile) : Name :=
  if f.locked then "Cleanup failed for ".data ++ f.name
  else "Cleanup removed old file: ".data ++ f.name

/-- `cleanup_keep_last(output_dir, keep_n)`: every file beyond index
`keep_n` of the mtime-descending order is unlinked; an unlink that
raises (a `locked` file) is caught, logged and skipped.  Returns the
resulting directory (in listing order) and the emitted log lines. -/
def cleanup_keep_last (files : Dir) (keep_n : Nat) : Dir × List Name :=
  let excess := (sortByMtimeDesc files).drop keep_n
  let deleted := excess.filter fun f => !f.locked
  (files.filter (fun f => decide (f ∉ deleted)), excess.map cleanupLogLine)

/-! ## Upload with retry (`rclone_copy_with_retry`)

The decorator is
`@retry(stop=stop_after_attempt(5), wait=wait_exponential(multiplier=2, min=2, max=30))`.
`tenacity` runs the body, and on an exception checks `stop` for the next
attempt number; if stopped it raises `RetryError`, otherwise it sleeps
`wait(n)` and retries.  `wait_exponential` computes
`multiplier * 2**(attempt_number - 1)` clamped into `[min, max]`. -/

/-- `stop_after_attempt(5)`. -/
def upload_max_attempts : Nat := 5

/-- The sleep `wait_exponential(multiplier=2, min=2, max=30)` returns
after attempt number `attempt`. -/
def backoff_wait (attempt : Nat) : Nat := max 2 (min (2 * 2 ^ (attempt - 1)) 30)

/-- Terminal value of one `rclone_copy_with_retry` call: whether some
attempt succeeded, how many attempts ran, and the sleeps taken between
attempts. -/
structure UploadOutcome where
  succeeded : Bool
  attempts_made : Nat
  delays : List Nat
deriving Repr, DecidableEq

/-- The `tenacity` retry loop.  `failures` is the environment's choice of
how many leading attempts raise (`rclone` exits non-zero); attempt
`failures + 1`, if it is still allowed to run, succeeds.  `remaining`
counts the attempts the `stop` condition still allows. -/
def retryGo (failures : Nat) : Nat → Nat → UploadOutcome
  | attempt, 0 => { succeeded := false, attempts_made := attempt - 1, delays := [] }
  | attempt, remaining + 1 =>
    if attempt ≤ failures then
      if remaining = 0 then
        { succeeded := false, attempts_made := attempt, delays := [] }
      else
        let rest := retryGo failures (attempt + 1) remaining
        { rest with delays := backoff_wait attempt :: rest.delays }
    else { succeeded := true, attempts_made := attempt, delays := [] }

/-- `rclone_copy_with_retry` under the decorator's policy: at most
`upload_max_attempts` attempts, exponential backoff between them. -/
def rclone_copy_with_retry (failures : Nat) : UploadOutcome :=
  retryGo failures 1 upload_max_attempts

/-! ## Command construction

Every external command of the script is built as an f-string and run
through the shell (`asyncio.create_subprocess_shell` or
`subprocess.run(cmd, shell=True)`); the URL and the output path are
inserted with `shlex.quote`.  The model keeps the distinction between a
raw shell string and a discrete argument vector, and models
`shlex.quote` and POSIX word splitting to reason about what the shell
makes of the built strings. -/

/-- How a subprocess is launched: a raw string handed to the shell, or
an argument vector passed directly (the script only ever uses the
former). -/
inductive Invocation where
  | shellCmd (cmd : Name)
  | argvCmd (argv : List Name)
deriving Repr, DecidableEq

/-- Whether an invocation passes its arguments as a discrete list. -/
def Invocation.isArgvList : Invocation → Bool
  | .shellCmd _ => false
  | .argvCmd _ => true

/-- A character `shlex.quote` leaves unquoted: ASCII word characters
plus `@ % + = : , . - ` and the slash (the `\w` Unicode extras are
conservatively treated as unsafe, which only moves a string into the
quoted branch and never changes how the shell tokenises the result). -/
def safeChar (c : Char) : Bool :=
  c.isAlphanum || ['_', '@', '%', '+', '=', ':', ',', '.', '/', '-'].contains c

/-- The body rewrite of `shlex.quote`'s quoted branch:
`s.replace("'", "'\"'\"'")`. -/
def quoteEsc : Name → Name
  | [] => []
  | c :: cs =>
    if c = '\'' then '\'' :: '"' :: '\'' :: '"' :: '\'' :: quoteEsc cs
    else c :: quoteEsc cs

/-- `shlex.quote(s)`: `''` for the empty string, `s` itself when every
character is safe, otherwise `s` with each `'` escaped, wrapped in
single quotes. -/
def shlexQuote (s : Name) : Name :=
  if s = [] then ['\'', '\'']
  else if s.all safeChar then s
  else '\'' :: (quoteEsc s ++ ['\''])

/-- Default of `YTARCHIVE_CMD`. -/
def YTARCHIVE_CMD : Name := "ytarchive".data

/-- Default of `YTDLP_CMD`. -/
def YTDLP_CMD : Name := "yt-dlp".data

/-- `str(OUTPUT_DIR)` for the default `Path("./recordings")`. -/
def OUTPUT_DIR : Name := "recordings".data

/-- `str(outpref)` in `record_with_ytarchive`:
`outdir / f"{safe_name}_{timestamp}.mkv"`. -/
def ytarchive_outpref (url ts : Name) : Name :=
  OUTPUT_DIR ++ '/' :: ytarchiveFileName url ts

/-- The f-string `record_with_ytarchive` hands to
`create_subprocess_shell`:
`f"{YTARCHIVE_CMD} --no-frag-files -q --output {shlex.quote(str(outpref))} {shlex.quote(url)}"`. -/
def ytarchive_cmd (url ts : Name) : Name :=
  YTARCHIVE_CMD ++ " --no-frag-files -q --output ".data ++
    (shlexQuote (ytarchive_outpref url ts) ++ ' ' :: shlexQuote url)

/-- `record_with_ytarchive` launches its tool through the shell. -/
def ytarchive_invocation (url ts : Name) : Invocation :=
  .shellCmd (ytarchive_cmd url ts)

/-- `str(outfile)` in `record_with_ytdlp`. -/
def ytdlp_outfile (url ts : Name) : Name :=
  OUTPUT_DIR ++ '/' :: ytdlpFileName url ts

/-- The f-string `record_with_ytdlp` hands to `create_subprocess_shell`:
`f"{YTDLP_CMD} -f best -o {shlex.quote(str(outfile))} --hls-use-mpegts --no-part --continue {shlex.quote(url)}"`. -/
def ytdlp_cmd (url ts : Name) : Name :=
  YTDLP_CMD ++ " -f best -o ".data ++
    (shlexQuote (ytdlp_outfile url ts) ++
      " --hls-use-mpegts --no-part --continue ".data ++ shlexQuote url)

/-- `record_with_ytdlp` launches its tool through the shell. -/
def ytdlp_invocation (url ts : Name) : Invocation :=
  .shellCmd (ytdlp_cmd url ts)

/-- The f-string `rclone_copy_with_retry` hands to
`subprocess.run(..., shell=True)`:
`f"rclone copyto --progress {shlex.quote(local_path)} {shlex.quote(remote_path)}"`. -/
def rclone_copy_cmd (local_path remote_path : Name) : Name :=
  "rclone copyto --progress ".data ++
    (shlexQuote local_path ++ ' ' :: shlexQuote remote_path)

/-- The upload helper also launches its tool through the shell. -/
def rclone_invocation (local_path remote_path : Name) : Invocation :=
  .shellCmd (rclone_copy_cmd local_path remote_path)

/-! ## POSIX word splitting

A small model of how a POSIX shell tokenises a command line: splitting
on (unquoted) spaces, with single- and double-quoted spans taken
literally.  Expansion-active characters (`$`, backquote, backslash
inside double quotes) never occur unquoted in the strings the script
builds — `shlex.quote` puts every string containing them inside single
quotes, where they are literal — so the model is sound for those
commands. -/

/-- Tokeniser mode: outside quotes, inside `'...'`, inside `"..."`. -/
inductive QuoteMode where
  | normal | single | double
deriving Repr, DecidableEq

/-- One pass of the word splitter.  The third argument is the word
accumulated so far (`none` between words). -/
def splitAux : List Char → QuoteMode → Option Name → List Name
  | [], _, w =>
    match w with
    | none => []
    | some ww => [ww]
  | c :: cs, .normal, w =>
    if c = ' ' then
      match w with
      | none => splitAux cs .normal none
      | some ww => ww :: splitAux cs .normal none
    else if c = '\'' then splitAux cs .single (some (w.getD []))
    else if c = '"' then splitAux cs .double (some (w.getD []))
    else splitAux cs .normal (some (w.getD [] ++ [c]))
  | c :: cs, .single, w =>
    if c = '\'' then splitAux cs .normal (some (w.getD []))
    else splitAux cs .single (some (w.getD [] ++ [c]))
  | c :: cs, .double, w =>
    if c = '"' then splitAux cs .normal (some (w.getD []))
    else splitAux cs .double (some (w.getD [] ++ [c]))

/-- The argument vector a POSIX shell extracts from a command line. -/
def shellSplit (s : Name) : List Name := splitAux s .normal none

/-! ## The per-URL job (`do_one`)

`do_one` tries `record_with_ytarchive`; on any exception it logs and
tries `record_with_ytdlp` once; if a file was produced it uploads it
with `rclone_copy_with_retry`, deletes the local copy, runs
`cleanup_keep_last`, and writes `status_{ts}.json`.  Any exception on
this path (in particular the upload exhausting its retries) falls into
the outer handler, which writes `status_fail_{ts}.json` and re-raises.
The environment decides whether each capture tool works, how many
upload attempts fail, and the timestamps and mtimes involved. -/

/-- Why one capture helper raised: executable not found (the shell exits
127, turned into `RuntimeError`), `asyncio.TimeoutError` after
`MAX_RUNTIME_SECONDS`, a non-zero tool exit, or a zero exit with no
discoverable output file.  `do_one`'s `except Exception` catches every
one of these. -/
inductive CapErr where
  | toolUnavailable | timedOut | toolFailed | noOutput
deriving Repr, DecidableEq

/-- Result of one capture helper as the environment decides it. -/
inductive CapRes where
  | ok | err (e : CapErr)
deriving Repr, DecidableEq

/-- Environment of one `do_one` call: the outcome and start timestamp of
each capture helper, the mtime the produced file gets, the number of
failing upload attempts, and the completion timestamp used for the
status filename. -/
structure JobEnv where
  primary : CapRes
  primaryTs : Name
  primaryMtime : Nat
  fallback : CapRes
  fallbackTs : Name
  fallbackMtime : Nat
  uploadFailures : Nat
  statusTs : Name
  statusMtime : Nat
deriving Repr, DecidableEq

/-- Writing a file with `open(path, "w")` (or a capture tool writing its
output): an existing entry of the same name is truncated in place (its
mtime updates, its directory position stays), a new name is appended to
the listing. -/
def writeFile (n : Name) (mtime : Nat) (d : Dir) : Dir :=
  if d.any (fun f => f.name == n) then
    d.map fun f => if f.name == n then { f with mtime := mtime } else f
  else d ++ [⟨n, mtime, false⟩]

/-- `rclone_delete_local`: `os.remove` with every exception caught and
logged.  The removal succeeds when a deletable entry of that name is
listed — otherwise (`FileNotFoundError`, permission error) the caught
exception leaves the listing unchanged.  Returns the directory and
whether the file is actually gone. -/
def rclone_delete_local (n : Name) (d : Dir) : Dir × Bool :=
  if d.any (fun f => f.name == n && !f.locked) then
    (d.filter fun g => !(g.name == n), true)
  else (d, false)

/-- The artifact path `do_one` ends up with, if any: the primary tool's
file when it works, else the fallback tool's file, else nothing.  A
failed capture attempt is modelled as producing no file. -/
def capturedName (url : Name) (e : JobEnv) : Option Name :=
  match e.primary with
  | .ok => some (ytarchiveFileName url e.primaryTs)
  | .err _ =>
    match e.fallback with
    | .ok => some (ytdlpFileName url e.fallbackTs)
    | .err _ => none

/-- The capture phase of `do_one`: the inner `try` around
`record_with_ytarchive` whose handler runs `record_with_ytdlp`.
Returns the directory, the produced path, and the strategies attempted
in order. -/
def recordPhase (url : Name) (e : JobEnv) (d : Dir) :
    Dir × Option Name × List Name :=
  match e.primary with
  | .ok =>
    (writeFile (ytarchiveFileName url e.primaryTs) e.primaryMtime d,
     some (ytarchiveFileName url e.primaryTs), ["ytarchive".data])
  | .err _ =>
    match e.fallback with
    | .ok =>
      (writeFile (ytdlpFileName url e.fallbackTs) e.fallbackMtime d,
       some (ytdlpFileName url e.fallbackTs), ["ytarchive".data, "yt-dlp".data])
    | .err _ => (d, none, ["ytarchive".data, "yt-dlp".data])

/-- The success status filename `f"status_{ts}.json"`. -/
def statusSuccessName (ts : Name) : Name :=
  "status_".data ++ (ts ++ ".json".data)

/-- The failure status filename `f"status_fail_{ts}.json"`. -/
def statusFailName (ts : Name) : Name :=
  "status_fail_".data ++ (ts ++ ".json".data)

/-- What one `do_one` call leaves behind: the directory, whether the job
succeeded (`uploaded` in the status record), the artifact path if one
was produced, and the capture strategies attempted. -/
structure JobResult where
  dir : Dir
  succeeded : Bool
  artifact : Option Name
  attempts : List Name
deriving Repr, DecidableEq

/-- `do_one(url)`: capture with fallback, upload with retry, delete the
local artifact, retention sweep, success status — or, when capture is
exhausted or the upload fails permanently, the outer handler's failure
status.  `keep_n` is `KEEP_LAST_N`. -/
def do_one (url : Name) (e : JobEnv) (keep_n : Nat) (d : Dir) : JobResult :=
  match recordPhase url e d with
  | (d1, none, atts) =>
    { dir := writeFile (statusFailName e.statusTs) e.statusMtime d1,
      succeeded := false, artifact := none, attempts := atts }
  | (d1, some art, atts) =>
    if (rclone_copy_with_retry e.uploadFailures).succeeded then
      let d2 := (rclone_delete_local art d1).1
      let d3 := (cleanup_keep_last d2 keep_n).1
      { dir := writeFile (statusSuccessName e.statusTs) e.statusMtime d3,
        succeeded := true, artifact := some art, attempts := atts }
    else
      { dir := writeFile (statusFailName e.statusTs) e.statusMtime d1,
        succeeded := false, artifact := some art, attempts := atts }

/-- The status filename this job's terminal record gets. -/
def jobStatusName (url : Name) (e : JobEnv) : Name :=
  match capturedName url e with
  | some _ =>
    if (rclone_copy_with_retry e.uploadFailures).succeeded then
      statusSuccessName e.statusTs
    else statusFailName e.statusTs
  | none => statusFailName e.statusTs

/-! ## The scheduler (`main` with `asyncio.gather`)

`main` builds one `do_one` task per URL and awaits
`asyncio.gather(*tasks)` (with the default `return_exceptions=False`):
the first task that raises makes `gather` re-raise immediately, `main`
propagates, and `asyncio.run` cancels every still-pending task while
shutting the loop down.  A failing `do_one` writes its failure status
and then re-raises, so it is exactly the failing jobs that abort the
wait.  The interleaving of the cooperative tasks is an input of the
model: a schedule of job indices, each entry letting that job run one
unit of work. -/

/-- One job as the scheduler sees it: how many units of work it needs to
reach its terminal state, and whether `do_one` then raises (the job
failed). -/
structure Job where
  steps : Nat
  fails : Bool
deriving Repr, DecidableEq

/-- Scheduler state per job: remaining work, whether the job raises at
completion, and its observed terminal status (`none` while running or
when cancelled, `some ok` once terminal). -/
abbrev SchedState := List (Nat × Bool × Option Bool)

/-- Run the schedule.  A completing job records its status; a completing
job that raises stops the run at once (`gather` propagates, pending
siblings are cancelled on loop shutdown and never complete). -/
def gatherRun : List Nat → SchedState → SchedState
  | [], st => st
  | i :: rest, st =>
    match st[i]? with
    | none => gatherRun rest st
    | some (r, fl, done) =>
      match done with
      | some _ => gatherRun rest st
      | none =>
        if r ≤ 1 then
          let st' := st.set i (0, fl, some (!fl))
          if fl then st' else gatherRun rest st'
        else gatherRun rest (st.set i (r - 1, fl, none))

/-- `asyncio.gather` over one task per URL: the terminal status each job
reached (`none` = cancelled before reaching a terminal state). -/
def run_all (jobs : List Job) (schedule : List Nat) : List (Option Bool) :=
  (gatherRun schedule (jobs.map fun j => (j.steps, j.fails, none))).map
    fun t => t.2.2

/-- The process exit status: `asyncio.run(main())` returns normally
(exit 0) exactly when `gather` collected a successful result from every
task; an unhandled exception exits non-zero. -/
def exit_code (jobs : List Job) (schedule : List Nat) : Nat :=
  if (run_all jobs schedule).all (fun s => s == some true) then 0 else 1

/-! ## A spec-side definition (refinement target only)

The spec describes the retained set of the retention sweep as "the N
most recently modified ones (ties broken by name)".  This definition
follows those words — it is not translated from the code — so the
code's sweep can be compared against it. -/

/-- Modelled from the spec's words, for comparison with
`cleanup_keep_last`: sort by modification time descending with ties
broken by name, keep the first `n`. -/
def specRetainedNameTie (d : Dir) (n : Nat) : Dir :=
  (List.insertionSort
    (fun f g => g.mtime < f.mtime ∨ (f.mtime = g.mtime ∧ f.name ≤ g.name)) d).take n

/-! ## Concrete states and environments used by the theorems -/

/-- A directory listing with an mtime tie (`b` listed before `a`) and a
file whose deletion fails. -/
def exDirTie : Dir :=
  [⟨"b".data, 5, false⟩, ⟨"a".data, 5, false⟩, ⟨"c".data, 1, true⟩]

/-- A directory holding a fresh artifact, the recording log and an old
per-job status file. -/
def exDirLog : Dir :=
  [⟨"video1.mkv".data, 100, false⟩, ⟨"recording.log".data, 5, false⟩,
   ⟨"status_20240101_000000.json".data, 3, false⟩]

/-- Three deletable files, all older than any write of the job. -/
def exDirThree : Dir :=
  [⟨"f1".data, 1, false⟩, ⟨"f2".data, 2, false⟩, ⟨"f3".data, 3, false⟩]

/-- A job whose primary capture works and whose upload succeeds first
try. -/
def exEnvOk : JobEnv :=
  { primary := .ok, primaryTs := "20240101_110000".data, primaryMtime := 10,
    fallback := .ok, fallbackTs := "20240101_110100".data, fallbackMtime := 11,
    uploadFailures := 0, statusTs := "20240101_120000".data, statusMtime := 20 }

/-- A job on which both capture strategies raise. -/
def exEnvCapFail : JobEnv :=
  { exEnvOk with primary := .err .toolUnavailable, fallback := .err .toolFailed }

/-- A job whose capture works but whose upload fails on every allowed
attempt. -/
def exEnvUploadFail : JobEnv :=
  { exEnvOk with uploadFailures := 7 }

/-- A job whose primary tool is unavailable and whose fallback works. -/
def exEnvFallbackOk : JobEnv :=
  { exEnvOk with primary := .err .toolUnavailable }

/-! # Theorems -/

/-! ## Sanitised filenames (claim C10) -/

/-- After `.replace("/", "_")` no slash remains. -/
lemma slash_not_mem_replSlash (s : Name) : '/' ∉ replSlash s := by
  intro h
  obtain ⟨c, _, hc⟩ := List.mem_map.mp h
  by_cases h' : c = '/' <;> simp [h'] at hc

/-- The final `.replace(":", "_")` introduces no slash. -/
lemma slash_not_mem_replColon (s : Name) (h : '/' ∉ s) : '/' ∉ replColon s := by
  intro hm
  obtain ⟨c, hc, hceq⟩ := List.mem_map.mp hm
  by_cases h' : c = ':'
  · simp [h'] at hceq
  · simp only [if_neg h'] at hceq
    exact h (hceq ▸ hc)

/-- `safe_name` never contains a path separator. -/
lemma slash_not_mem_safe_name (url : Name) : '/' ∉ safe_name url :=
  slash_not_mem_replColon _ (slash_not_mem_replSlash _)

/-- Claim C10: for every source identifier the sanitised artifact
filename built by either capture strategy (the URL with `https://`
removed, `/` and `:` replaced by `_`, plus the capture-start timestamp
and extension) contains no path separator, so both strategies place the
artifact directly under the output directory, never outside it or in a
subdirectory. -/
theorem artifact_filename_no_path_separator (url ts : Name) (hts : '/' ∉ ts) :
    '/' ∉ ytarchiveFileName url ts ∧ '/' ∉ ytdlpFileName url ts := by
  constructor <;>
  · intro hmem
    simp only [ytarchiveFileName, ytdlpFileName, List.mem_append, List.mem_cons] at hmem
    rcases hmem with h | h | h
    · exact slash_not_mem_safe_name url h
    · revert h
      decide
    · rcases h with h | h
      · exact hts h
      · revert h
        decide

/-- Witness for C10 at a concrete timestamp. -/
theorem artifact_filename_no_path_separator_witness :
    '/' ∉ "20240101_000000".data ∧
      ('/' ∉ ytarchiveFileName "https://a/b".data "20240101_000000".data ∧
        '/' ∉ ytdlpFileName "https://a/b".data "20240101_000000".data) :=
  ⟨by decide, artifact_filename_no_path_separator _ _ (by decide)⟩

/-! ## The sweep spares nothing (claim C9) -/

/-- Claim C9: the retention sweep's deletion-candidate set is every
regular file in the listing with no exemptions — on this state it
deletes the recording log and a previously written status file, both
beyond the `keep_n = 1` cutoff. -/
theorem cleanup_deletes_log_and_status_files :
    (cleanup_keep_last exDirLog 1).1 = [⟨"video1.mkv".data, 100, false⟩] ∧
      "recording.log".data ∉ ((cleanup_keep_last exDirLog 1).1.map FsFile.name) ∧
      "status_20240101_000000.json".data ∉
        ((cleanup_keep_last exDirLog 1).1.map FsFile.name) := by
  decide

/-! ## Counterexamples -/

/-- Counterexample to claim C2 as stated: on `exDirTie` with `N = 1`
the sweep keeps `b` (first in listing order among the mtime tie), not
`a` as a name tiebreak would, and the locked file `c` survives the
failed unlink, so more than `N` files remain.  The code sorts by mtime
alone; ties fall back to listing order, and deletion failures leave
extra files. -/
theorem cleanup_tiebreak_counterexample :
    (cleanup_keep_last exDirTie 1).1 ≠ specRetainedNameTie exDirTie 1 ∧
      ¬ (cleanup_keep_last exDirTie 1).1.length ≤ 1 := by
  decide

/-- Counterexample to claim C3 as stated: job 0 fails after one unit of
work while job 1 still needs work; `gather` re-raises at once and job 1
is cancelled, never reaching a terminal state — so the scheduler does
not wait for every job and does cancel a sibling. -/
theorem failing_job_cancels_sibling :
    run_all [⟨1, true⟩, ⟨2, false⟩] [0, 1, 1] = [some false, none] ∧
      ¬ (∀ s ∈ run_all [⟨1, true⟩, ⟨2, false⟩] [0, 1, 1], s.isSome = true) := by
  decide

/-- Counterexample to claim C4 as stated: two jobs for two different
URLs complete in the same second (`statusTs` equal), so both write the
same `status_{ts}.json` name and a single status file remains for two
processed source identifiers — not one per identifier. -/
theorem same_second_jobs_share_status_file :
    (((do_one "https://b".data exEnvOk 5
          (do_one "https://a".data exEnvOk 5 []).dir).dir.filter
        (fun f => hasPfx "status_".data f.name)).length = 1 ∧
      ¬ (((do_one "https://b".data exEnvOk 5
            (do_one "https://a".data exEnvOk 5 []).dir).dir.filter
          (fun f => hasPfx "status_".data f.name)).length = 2)) := by
  decide

/-- Counterexample to claim C7 as stated: on a job whose capture chain
is exhausted, `cleanup_keep_last` is never invoked (it sits on the
success path only), and the directory keeps its three old files plus
the failure status — more than `KEEP_LAST_N = 1`. -/
theorem failed_job_skips_retention :
    ¬ ((do_one "https://a".data exEnvCapFail 1 exDirThree).dir.length ≤ 1) := by
  decide

/-- Counterexample to claim C8 as stated: every subprocess of the
script is launched as a raw shell string (`create_subprocess_shell`,
`subprocess.run(shell=True)`), not as a command plus discrete argument
list. -/
theorem commands_are_shell_strings :
    (ytarchive_invocation "https://a".data "20240101_000000".data).isArgvList
        = false ∧
      (ytdlp_invocation "https://a".data "20240101_000000".data).isArgvList
        = false ∧
      (rclone_invocation "recordings/a.mkv".data
          "gdrive:yt_backups/a.mkv".data).isArgvList = false := by
  decide

/-! ## Word splitting of the quoted commands (claim C8, amended) -/

/-- A safe character is not a space. -/
lemma safeChar_ne_space {c : Char} (h : safeChar c = true) : ¬ c = ' ' := by
  intro he
  subst he
  revert h
  decide

/-- A safe character is not a single quote. -/
lemma safeChar_ne_squote {c : Char} (h : safeChar c = true) : ¬ c = '\'' := by
  intro he
  subst he
  revert h
  decide

/-- A safe character is not a double quote. -/
lemma safeChar_ne_dquote {c : Char} (h : safeChar c = true) : ¬ c = '"' := by
  intro he
  subst he
  revert h
  decide

/-- Safe characters pass through the splitter, extending the current
word. -/
lemma splitAux_safe (s : Name) (h : s.all safeChar = true) (w : Name)
    (cs : List Char) :
    splitAux (s ++ cs) .normal (some w) = splitAux cs .normal (some (w ++ s)) := by
  induction s generalizing w with
  | nil => simp
  | cons c s' ih =>
    rw [List.all_cons, Bool.and_eq_true] at h
    rw [List.cons_append]
    rw [show splitAux (c :: (s' ++ cs)) .normal (some w)
          = splitAux (s' ++ cs) .normal (some (w ++ [c])) from by
      simp [splitAux, safeChar_ne_space h.1, safeChar_ne_squote h.1,
        safeChar_ne_dquote h.1]]
    rw [ih h.2]
    simp

/-- The escaped body of a quoted string passes through the splitter
inside single quotes, extending the current word by the original
string. -/
lemma splitAux_quoteEsc (s : Name) (w : Name) (cs : List Char) :
    splitAux (quoteEsc s ++ cs) .single (some w)
      = splitAux cs .single (some (w ++ s)) := by
  induction s generalizing w with
  | nil => simp [quoteEsc]
  | cons c s' ih =>
    by_cases hc : c = '\''
    · subst hc
      show splitAux (quoteEsc ('\'' :: s') ++ cs) .single (some w) = _
      rw [show quoteEsc ('\'' :: s')
            = '\'' :: '"' :: '\'' :: '"' :: '\'' :: quoteEsc s' from by
        simp [quoteEsc]]
      simp only [List.cons_append]
      rw [show splitAux
            ('\'' :: '"' :: '\'' :: '"' :: '\'' :: (quoteEsc s' ++ cs))
            .single (some w)
            = splitAux (quoteEsc s' ++ cs) .single (some (w ++ ['\''])) from by
        simp [splitAux]]
      rw [ih]
      simp
    · rw [show quoteEsc (c :: s') = c :: quoteEsc s' from by simp [quoteEsc, hc]]
      rw [List.cons_append]
      rw [show splitAux (c :: (quoteEsc s' ++ cs)) .single (some w)
            = splitAux (quoteEsc s' ++ cs) .single (some (w ++ [c])) from by
        simp [splitAux, hc]]
      rw [ih]
      simp

/-- A `shlex.quote`d string, fed to the splitter mid-word, extends the
current word by exactly the original string. -/
lemma splitAux_quote_some (s w : Name) (cs : List Char) :
    splitAux (shlexQuote s ++ cs) .normal (some w)
      = splitAux cs .normal (some (w ++ s)) := by
  by_cases h0 : s = []
  · subst h0
    simp [shlexQuote, splitAux]
  · by_cases hsafe : s.all safeChar = true
    · rw [show shlexQuote s = s from by simp [shlexQuote, h0, hsafe]]
      exact splitAux_safe s hsafe w cs
    · rw [show shlexQuote s = '\'' :: (quoteEsc s ++ ['\'']) from by
        simp [shlexQuote, h0, hsafe]]
      rw [List.cons_append]
      rw [show splitAux ('\'' :: ((quoteEsc s ++ ['\'']) ++ cs)) .normal (some w)
            = splitAux ((quoteEsc s ++ ['\'']) ++ cs) .single (some w) from by
        simp [splitAux]]
      rw [List.append_assoc, List.singleton_append]
      rw [splitAux_quoteEsc]
      simp [splitAux]

/-- A `shlex.quote`d string, fed to the splitter between words, starts
and yields exactly one word: the original string. -/
lemma splitAux_quote_none (s : Name) (cs : List Char) :
    splitAux (shlexQuote s ++ cs) .normal none
      = splitAux cs .normal (some s) := by
  by_cases h0 : s = []
  · subst h0
    simp [shlexQuote, splitAux]
  · by_cases hsafe : s.all safeChar = true
    · obtain ⟨c, s', rfl⟩ : ∃ c s', s = c :: s' := by
        cases s with
        | nil => exact absurd rfl h0
        | cons c s' => exact ⟨c, s', rfl⟩
      rw [List.all_cons, Bool.and_eq_true] at hsafe
      rw [show shlexQuote (c :: s') = c :: s' from by
        simp only [shlexQuote, if_neg h0]
        rw [if_pos]
        rw [List.all_cons, Bool.and_eq_true]
        exact hsafe]
      rw [List.cons_append]
      rw [show splitAux (c :: (s' ++ cs)) .normal none
            = splitAux (s' ++ cs) .normal (some [c]) from by
        simp [splitAux, safeChar_ne_space hsafe.1, safeChar_ne_squote hsafe.1,
          safeChar_ne_dquote hsafe.1]]
      rw [splitAux_safe s' hsafe.2]
      simp
    · rw [show shlexQuote s = '\'' :: (quoteEsc s ++ ['\'']) from by
        simp [shlexQuote, h0, hsafe]]
      rw [List.cons_append]
      rw [show splitAux ('\'' :: ((quoteEsc s ++ ['\'']) ++ cs)) .normal none
            = splitAux ((quoteEsc s ++ ['\'']) ++ cs) .single (some []) from by
        simp [splitAux]]
      rw [List.append_assoc, List.singleton_append]
      rw [splitAux_quoteEsc]
      simp [splitAux]

/-- A literal safe word of the command template followed by a space
yields that word. -/
lemma splitAux_word (wd : Name) (hw : wd.all safeChar = true) (hne : wd ≠ [])
    (cs : List Char) :
    splitAux (wd ++ ' ' :: cs) .normal none = wd :: splitAux cs .normal none := by
  obtain ⟨c, w', rfl⟩ : ∃ c w', wd = c :: w' := by
    cases wd with
    | nil => exact absurd rfl hne
    | cons c w' => exact ⟨c, w', rfl⟩
  rw [List.all_cons, Bool.and_eq_true] at hw
  rw [List.cons_append]
  rw [show splitAux (c :: (w' ++ ' ' :: cs)) .normal none
        = splitAux (w' ++ ' ' :: cs) .normal (some [c]) from by
    simp [splitAux, safeChar_ne_space hw.1, safeChar_ne_squote hw.1,
      safeChar_ne_dquote hw.1]]
  rw [splitAux_safe w' hw.2]
  simp [splitAux]

/-- A space after a completed word emits it. -/
lemma splitAux_space (w : Name) (cs : List Char) :
    splitAux (' ' :: cs) .normal (some w) = w :: splitAux cs .normal none := by
  simp [splitAux]

/-- A quoted string ending the command line is its own final word. -/
lemma splitAux_quote_last (s : Name) :
    splitAux (shlexQuote s) .normal none = [s] := by
  rw [show shlexQuote s = shlexQuote s ++ [] from (List.append_nil _).symm]
  rw [splitAux_quote_none]
  rfl

/-- Claim C8, amended: the commands are raw shell strings, but the URL
and the local/remote paths are inserted through `shlex.quote`, so POSIX
word splitting recovers, for every source identifier whatsoever, the
fixed flags with the quoted operands each as exactly one argument — no
content of the identifier can alter the command's structure. -/
theorem quoted_operands_stay_single_arguments (url ts lp rp : Name) :
    shellSplit (ytarchive_cmd url ts)
        = ["ytarchive".data, "--no-frag-files".data, "-q".data,
           "--output".data, ytarchive_outpref url ts, url] ∧
      shellSplit (ytdlp_cmd url ts)
        = ["yt-dlp".data, "-f".data, "best".data, "-o".data,
           ytdlp_outfile url ts, "--hls-use-mpegts".data, "--no-part".data,
           "--continue".data, url] ∧
      shellSplit (rclone_copy_cmd lp rp)
        = ["rclone".data, "copyto".data, "--progress".data, lp, rp] := by
  refine ⟨?_, ?_, ?_⟩
  · show splitAux (ytarchive_cmd url ts) .normal none = _
    rw [show ytarchive_cmd url ts
          = "ytarchive".data ++ ' ' :: ("--no-frag-files".data ++ ' ' ::
              ("-q".data ++ ' ' :: ("--output".data ++ ' ' ::
                (shlexQuote (ytarchive_outpref url ts) ++
                  ' ' :: shlexQuote url)))) from by
      rw [ytarchive_cmd,
        show YTARCHIVE_CMD ++ " --no-frag-files -q --output ".data
            = "ytarchive".data ++ ' ' :: ("--no-frag-files".data ++ ' ' ::
                ("-q".data ++ ' ' :: ("--output".data ++ [' ']))) from by decide]
      simp [List.append_assoc]]
    rw [splitAux_word "ytarchive".data (by decide) (by decide),
      splitAux_word "--no-frag-files".data (by decide) (by decide),
      splitAux_word "-q".data (by decide) (by decide),
      splitAux_word "--output".data (by decide) (by decide),
      splitAux_quote_none, splitAux_space, splitAux_quote_last]
  · show splitAux (ytdlp_cmd url ts) .normal none = _
    rw [show ytdlp_cmd url ts
          = "yt-dlp".data ++ ' ' :: ("-f".data ++ ' ' ::
              ("best".data ++ ' ' :: ("-o".data ++ ' ' ::
                (shlexQuote (ytdlp_outfile url ts) ++ ' ' ::
                  ("--hls-use-mpegts".data ++ ' ' :: ("--no-part".data ++ ' ' ::
                    ("--continue".data ++ ' ' :: shlexQuote url))))))) from by
      rw [ytdlp_cmd,
        show YTDLP_CMD ++ " -f best -o ".data
            = "yt-dlp".data ++ ' ' :: ("-f".data ++ ' ' ::
                ("best".data ++ ' ' :: ("-o".data ++ [' ']))) from by decide,
        show " --hls-use-mpegts --no-part --continue ".data
            = ' ' :: ("--hls-use-mpegts".data ++ ' ' :: ("--no-part".data ++
                ' ' :: ("--continue".data ++ [' ']))) from by decide]
      simp [List.append_assoc]]
    rw [splitAux_word "yt-dlp".data (by decide) (by decide),
      splitAux_word "-f".data (by decide) (by decide),
      splitAux_word "best".data (by decide) (by decide),
      splitAux_word "-o".data (by decide) (by decide),
      splitAux_quote_none, splitAux_space,
      splitAux_word "--hls-use-mpegts".data (by decide) (by decide),
      splitAux_word "--no-part".data (by decide) (by decide),
      splitAux_word "--continue".data (by decide) (by decide),
      splitAux_quote_last]
  · show splitAux (rclone_copy_cmd lp rp) .normal none = _
    rw [show rclone_copy_cmd lp rp
          = "rclone".data ++ ' ' :: ("copyto".data ++ ' ' ::
              ("--progress".data ++ ' ' ::
                (shlexQuote lp ++ ' ' :: shlexQuote rp))) from by
      rw [rclone_copy_cmd,
        show "rclone copyto --progress ".data
            = "rclone".data ++ ' ' :: ("copyto".data ++ ' ' ::
                ("--progress".data ++ [' '])) from by decide]
      simp [List.append_assoc]]
    rw [splitAux_word "rclone".data (by decide) (by decide),
      splitAux_word "copyto".data (by decide) (by decide),
      splitAux_word "--progress".data (by decide) (by decide),
      splitAux_quote_none, splitAux_space, splitAux_quote_last]

/-! ## Upload retry policy (claim C6) -/

/-- When every attempt fails, the retry loop stops after the five
allowed attempts, having slept 2, 4, 8 and 16 units between them. -/
lemma rclone_copy_with_retry_exhausted (f : Nat) (h : 5 ≤ f) :
    rclone_copy_with_retry f
      = { succeeded := false, attempts_made := 5, delays := [2, 4, 8, 16] } := by
  have h1 : 1 ≤ f := by omega
  have h2 : 2 ≤ f := by omega
  have h3 : 3 ≤ f := by omega
  have h4 : 4 ≤ f := by omega
  simp [rclone_copy_with_retry, upload_max_attempts, retryGo, backoff_wait,
    h1, h2, h3, h4, h]

/-- Claim C6: the upload makes at most the configured maximum number of
attempts (5); the inter-attempt backoff delays are non-decreasing
(`Sorted (· ≤ ·)`), start at the minimum delay 2, and stay within the
cap 30. -/
theorem upload_retry_policy (failures : Nat) :
    (rclone_copy_with_retry failures).attempts_made ≤ upload_max_attempts ∧
      List.Sorted (· ≤ ·) (rclone_copy_with_retry failures).delays ∧
      (∀ w ∈ (rclone_copy_with_retry failures).delays, 2 ≤ w ∧ w ≤ 30) ∧
      ((rclone_copy_with_retry failures).delays.head? = some 2 ∨
        (rclone_copy_with_retry failures).delays = []) := by
  by_cases h : failures < 5
  · interval_cases failures <;> decide
  · rw [rclone_copy_with_retry_exhausted failures (by omega)]
    decide

/-! ## Retention sweep characterisation (claim C2, amended) -/

/-- Membership after the sweep: a file survives exactly when it sits in
the first `n` of the stable mtime-descending order, or its deletion
failed.  In particular one file's failed unlink never stops the others'
deletion. -/
lemma mem_cleanup_keep_last (d : Dir) (n : Nat)
    (hnd : (d.map FsFile.name).Nodup) (f : FsFile) :
    f ∈ (cleanup_keep_last d n).1 ↔
      f ∈ d ∧ (f ∈ (sortByMtimeDesc d).take n ∨ f.locked = true) := by
  have hdnd : d.Nodup := hnd.of_map
  have hperm : List.Perm (sortByMtimeDesc d) d := List.perm_insertionSort _ d
  have hsnd : (sortByMtimeDesc d).Nodup := hperm.nodup_iff.mpr hdnd
  show f ∈ d.filter _ ↔ _
  rw [List.mem_filter]
  constructor
  · rintro ⟨hfd, hdec⟩
    have hnotdel : f ∉ (sortByMtimeDesc d).drop n ∨ f.locked = true := by
      simpa using hdec
    refine ⟨hfd, ?_⟩
    by_cases hl : f.locked
    · exact Or.inr hl
    · left
      have hfs : f ∈ (sortByMtimeDesc d).take n ++ (sortByMtimeDesc d).drop n := by
        rw [List.take_append_drop]
        exact hperm.mem_iff.mpr hfd
      rcases List.mem_append.mp hfs with h | h
      · exact h
      · rcases hnotdel with h' | h'
        · exact absurd h h'
        · exact absurd h' hl
  · rintro ⟨hfd, hkeep⟩
    refine ⟨hfd, ?_⟩
    simp only [decide_eq_true_eq]
    intro hdel
    obtain ⟨hex, hlck⟩ := List.mem_filter.mp hdel
    rcases hkeep with hk | hk
    · exact List.disjoint_take_drop hsnd (le_refl n) hk hex
    · simp [hk] at hlck

/-- When every deletion succeeds, at most `n` files survive. -/
lemma cleanup_keep_last_length (d : Dir) (n : Nat)
    (hnd : (d.map FsFile.name).Nodup) (hunl : ∀ f ∈ d, f.locked = false) :
    (cleanup_keep_last d n).1.length ≤ n := by
  have hsub : (cleanup_keep_last d n).1 ⊆ (sortByMtimeDesc d).take n := by
    intro f hf
    obtain ⟨hfd, hor⟩ := (mem_cleanup_keep_last d n hnd f).mp hf
    rcases hor with h | h
    · exact h
    · rw [hunl f hfd] at h
      exact Bool.noConfusion h
  have hndr : (cleanup_keep_last d n).1.Nodup :=
    (List.filter_sublist d).nodup hnd.of_map
  refine le_trans (List.Subperm.length_le (List.subperm_of_subset hndr hsub)) ?_
  rw [List.length_take]
  omega

/-- Claim C2, amended: after `cleanup_keep_last(dir, N)` a file remains
iff it is among the first `N` of the listing sorted stably by
modification time descending — ties keep directory-listing order, not
name order — or its own deletion failed; if every deletion succeeds at
most `N` files remain; and every file beyond the cutoff gets a log line
(deletion or caught failure), one file's failure never aborting the
sweep. -/
theorem cleanup_keep_last_spec (d : Dir) (n : Nat)
    (hnd : (d.map FsFile.name).Nodup) :
    (∀ f, f ∈ (cleanup_keep_last d n).1 ↔
        f ∈ d ∧ (f ∈ (sortByMtimeDesc d).take n ∨ f.locked = true)) ∧
      ((∀ f ∈ d, f.locked = false) → (cleanup_keep_last d n).1.length ≤ n) ∧
      (∀ f ∈ (sortByMtimeDesc d).drop n,
        cleanupLogLine f ∈ (cleanup_keep_last d n).2) :=
  ⟨mem_cleanup_keep_last d n hnd, cleanup_keep_last_length d n hnd,
    fun _ hf => List.mem_map_of_mem _ hf⟩

/-- Witness for the amended C2 on a concrete listing with an mtime tie
and a locked file. -/
theorem cleanup_keep_last_spec_witness :
    (exDirTie.map FsFile.name).Nodup ∧
      ((∀ f, f ∈ (cleanup_keep_last exDirTie 1).1 ↔
          f ∈ exDirTie ∧ (f ∈ (sortByMtimeDesc exDirTie).take 1 ∨ f.locked = true)) ∧
        ((∀ f ∈ exDirTie, f.locked = false) →
          (cleanup_keep_last exDirTie 1).1.length ≤ 1) ∧
        (∀ f ∈ (sortByMtimeDesc exDirTie).drop 1,
          cleanupLogLine f ∈ (cleanup_keep_last exDirTie 1).2)) :=
  ⟨by decide, cleanup_keep_last_spec exDirTie 1 (by decide)⟩

/-! ## Scheduler (claim C3, amended) -/

/-- The run keeps one state slot per job. -/
lemma gatherRun_length (sched : List Nat) :
    ∀ st : SchedState, (gatherRun sched st).length = st.length := by
  induction sched with
  | nil => intro st; rfl
  | cons i rest ih =>
    intro st
    simp only [gatherRun]
    cases hq : st[i]? with
    | none => exact ih st
    | some tt =>
      obtain ⟨r, fl, done⟩ := tt
      cases done with
      | some b => exact ih st
      | none =>
        by_cases hr : r ≤ 1
        · simp only [if_pos hr]
          by_cases hfl : fl = true
          · simp [hfl, List.length_set]
          · simp [hfl, ih _, List.length_set]
        · simp only [if_neg hr]
          rw [ih _, List.length_set]

/-- If no job is marked failing, no slot ever records a failure. -/
lemma gatherRun_no_false (sched : List Nat) :
    ∀ st : SchedState,
      (∀ t ∈ st, t.2.1 = false ∧ t.2.2 ≠ some false) →
      ∀ t ∈ gatherRun sched st, t.2.2 ≠ some false := by
  induction sched with
  | nil => intro st h t ht; exact (h t ht).2
  | cons i rest ih =>
    intro st h
    simp only [gatherRun]
    cases hq : st[i]? with
    | none => exact ih st h
    | some tt =>
      obtain ⟨r, fl, done⟩ := tt
      have hmem : (r, fl, done) ∈ st := by
        obtain ⟨hi, he⟩ := List.getElem?_eq_some.mp hq
        exact he ▸ List.getElem_mem hi
      have hfl : fl = false := (h _ hmem).1
      cases done with
      | some b => exact ih st h
      | none =>
        by_cases hr : r ≤ 1
        · simp only [if_pos hr, hfl, Bool.not_false, if_neg]
          have hset : ∀ t ∈ st.set i (0, false, some true),
              t.2.1 = false ∧ t.2.2 ≠ some false := by
            intro t ht
            rcases List.mem_or_eq_of_mem_set ht with h' | h'
            · exact h t h'
            · subst h'
              exact ⟨rfl, by simp⟩
          simpa using ih _ hset
        · simp only [if_neg hr]
          have hset : ∀ t ∈ st.set i (r - 1, fl, none),
              t.2.1 = false ∧ t.2.2 ≠ some false := by
            intro t ht
            rcases List.mem_or_eq_of_mem_set ht with h' | h'
            · exact h t h'
            · subst h'
              exact ⟨hfl, by simp⟩
          exact ih _ hset

/-- Claim C3, amended: the run yields one status slot per source
identifier; the process exits zero exactly when every job ran to a
successful terminal state; and a recorded failure can only come from a
job that actually fails.  When one job does fail, `gather` re-raises at
once and still-pending siblings are cancelled before reaching a
terminal state (see the counterexample), so the scheduler does not wait
for every job. -/
theorem scheduler_exit_status (jobs : List Job) (sched : List Nat) :
    (run_all jobs sched).length = jobs.length ∧
      (exit_code jobs sched = 0 ↔ ∀ s ∈ run_all jobs sched, s = some true) ∧
      ((∀ j ∈ jobs, j.fails = false) → some false ∉ run_all jobs sched) := by
  refine ⟨?_, ?_, ?_⟩
  · show ((gatherRun sched _).map _).length = _
    rw [List.length_map, gatherRun_length, List.length_map]
  · unfold exit_code
    by_cases h : (run_all jobs sched).all (fun s => s == some true) = true
    · simp only [if_pos h]
      constructor
      · intro _ s hs
        have := List.all_eq_true.mp h s hs
        simpa using this
      · intro _
        trivial
    · simp only [if_neg h]
      constructor
      · intro h10
        exact absurd h10 (by omega)
      · intro hall
        exact absurd (List.all_eq_true.mpr fun s hs => by simp [hall s hs]) h
  · intro hjobs hmem
    obtain ⟨t, ht, hteq⟩ := List.mem_map.mp hmem
    have hinit : ∀ t ∈ jobs.map (fun j => (j.steps, j.fails, (none : Option Bool))),
        t.2.1 = false ∧ t.2.2 ≠ some false := by
      intro t ht'
      obtain ⟨j, hj, rfl⟩ := List.mem_map.mp ht'
      exact ⟨hjobs j hj, by simp⟩
    exact gatherRun_no_false sched _ hinit t ht hteq

/-- Witness for the amended C3 on a one-job run. -/
theorem scheduler_exit_status_witness :
    (run_all [⟨2, false⟩] [0, 0]).length = [(⟨2, false⟩ : Job)].length ∧
      (exit_code [⟨2, false⟩] [0, 0] = 0 ↔
        ∀ s ∈ run_all [⟨2, false⟩] [0, 0], s = some true) ∧
      ((∀ j ∈ [(⟨2, false⟩ : Job)], j.fails = false) →
        some false ∉ run_all [⟨2, false⟩] [0, 0]) :=
  scheduler_exit_status [⟨2, false⟩] [0, 0]

/-! ## File-writing and deletion helpers for the `do_one` claims -/

/-- The existence test of `writeFile`, restated as name membership. -/
lemma any_name_eq_iff (d : Dir) (n : Name) :
    (d.any fun f => f.name == n) = true ↔ n ∈ d.map FsFile.name := by
  rw [List.any_eq_true]
  constructor
  · rintro ⟨f, hf, he⟩
    exact List.mem_map.mpr ⟨f, hf, beq_iff_eq.mp he⟩
  · rintro hm
    obtain ⟨f, hf, he⟩ := List.mem_map.mp hm
    exact ⟨f, hf, beq_iff_eq.mpr he⟩

/-- Truncating an existing file in place keeps the name listing. -/
lemma writeFile_update_names (n : Name) (m : Nat) (d : Dir) :
    ((d.map fun f => if f.name == n then { f with mtime := m } else f).map
        FsFile.name) = d.map FsFile.name := by
  rw [List.map_map]
  apply List.map_congr_left
  intro f _
  by_cases hf : (f.name == n) = true <;> simp [Function.comp, hf]

/-- Writing a fresh name appends it to the listing. -/
lemma writeFile_fresh (n : Name) (m : Nat) (d : Dir)
    (h : n ∉ d.map FsFile.name) :
    writeFile n m d = d ++ [⟨n, m, false⟩] := by
  unfold writeFile
  rw [if_neg]
  intro ha
  exact h ((any_name_eq_iff d n).mp ha)

/-- A name is listed after `writeFile` iff it was listed before or is
the written name. -/
lemma writeFile_names_mem (n : Name) (m : Nat) (d : Dir) (x : Name) :
    x ∈ (writeFile n m d).map FsFile.name ↔ x ∈ d.map FsFile.name ∨ x = n := by
  unfold writeFile
  by_cases h : (d.any fun f => f.name == n) = true
  · rw [if_pos h, writeFile_update_names]
    constructor
    · exact Or.inl
    · rintro (hx | rfl)
      · exact hx
      · exact (any_name_eq_iff d x).mp h
  · rw [if_neg h, List.map_append]
    simp

/-- The written name is listed afterwards. -/
lemma writeFile_mem_self (n : Name) (m : Nat) (d : Dir) :
    n ∈ (writeFile n m d).map FsFile.name :=
  (writeFile_names_mem n m d n).mpr (Or.inr rfl)

/-- `writeFile` keeps the name listing duplicate-free. -/
lemma writeFile_names_nodup (n : Name) (m : Nat) (d : Dir)
    (h : (d.map FsFile.name).Nodup) :
    ((writeFile n m d).map FsFile.name).Nodup := by
  unfold writeFile
  by_cases ha : (d.any fun f => f.name == n) = true
  · rw [if_pos ha, writeFile_update_names]
    exact h
  · rw [if_neg ha, List.map_append]
    have hn : n ∉ d.map FsFile.name := fun hm => ha ((any_name_eq_iff d n).mpr hm)
    refine List.nodup_append.mpr ⟨h, List.nodup_singleton n, ?_⟩
    intro a haa hab
    rw [List.map_singleton, List.mem_singleton] at hab
    subst hab
    exact hn haa

/-- `writeFile` grows the listing by at most one entry. -/
lemma writeFile_length_le (n : Name) (m : Nat) (d : Dir) :
    (writeFile n m d).length ≤ d.length + 1 := by
  unfold writeFile
  by_cases ha : (d.any fun f => f.name == n) = true
  · rw [if_pos ha, List.length_map]
    omega
  · rw [if_neg ha, List.length_append]
    simp

/-- `writeFile` never shrinks the listing. -/
lemma writeFile_length_ge (n : Name) (m : Nat) (d : Dir) :
    d.length ≤ (writeFile n m d).length := by
  unfold writeFile
  by_cases ha : (d.any fun f => f.name == n) = true
  · rw [if_pos ha, List.length_map]
  · rw [if_neg ha, List.length_append]
    simp

/-- `writeFile` preserves an all-deletable directory. -/
lemma writeFile_unlocked (n : Name) (m : Nat) (d : Dir)
    (h : ∀ f ∈ d, f.locked = false) :
    ∀ f ∈ writeFile n m d, f.locked = false := by
  unfold writeFile
  by_cases ha : (d.any fun f => f.name == n) = true
  · rw [if_pos ha]
    intro f hf
    obtain ⟨g, hg, rfl⟩ := List.mem_map.mp hf
    by_cases hgn : (g.name == n) = true <;> simp [hgn, h g hg]
  · rw [if_neg ha]
    intro f hf
    rcases List.mem_append.mp hf with hfd | hfs
    · exact h f hfd
    · rw [List.mem_singleton] at hfs
      subst hfs
      rfl

/-- `rclone_delete_local` only ever removes entries. -/
lemma rclone_delete_local_sublist (n : Name) (d : Dir) :
    List.Sublist (rclone_delete_local n d).1 d := by
  unfold rclone_delete_local
  by_cases hq : (d.any fun f => f.name == n && !f.locked) = true
  · rw [if_pos hq]
    exact List.filter_sublist d
  · rw [if_neg hq]

/-- Deleting an unlocked file that is present removes its name from the
listing. -/
lemma rclone_delete_local_removes (art : Name) (d : Dir) (f : FsFile)
    (hf : f ∈ d) (hname : f.name = art) (hl : f.locked = false) :
    art ∉ ((rclone_delete_local art d).1.map FsFile.name) := by
  unfold rclone_delete_local
  rw [if_pos (List.any_eq_true.mpr ⟨f, hf, by simp [hname, hl]⟩)]
  intro hmem
  obtain ⟨x, hx, hxn⟩ := List.mem_map.mp hmem
  obtain ⟨hxd, hxf⟩ := List.mem_filter.mp hx
  simp [hxn] at hxf

/-- The sweep only ever removes entries. -/
lemma cleanup_keep_last_sublist (d : Dir) (n : Nat) :
    List.Sublist (cleanup_keep_last d n).1 d :=
  List.filter_sublist d

/-- Name absence is preserved under taking sublists. -/
lemma not_mem_names_of_sublist {l₁ l₂ : Dir} (h : List.Sublist l₁ l₂)
    {x : Name} (hx : x ∉ l₂.map FsFile.name) : x ∉ l₁.map FsFile.name :=
  fun hm => hx ((h.map FsFile.name).subset hm)

/-- Name-listing nodup is preserved under taking sublists. -/
lemma names_nodup_of_sublist {l₁ l₂ : Dir} (h : List.Sublist l₁ l₂)
    (hnd : (l₂.map FsFile.name).Nodup) : (l₁.map FsFile.name).Nodup :=
  (h.map FsFile.name).nodup hnd

/-- Lists with different last elements differ. -/
lemma name_ne_of_getLast? {a b : Name} {c₁ c₂ : Char}
    (ha : a.getLast? = some c₁) (hb : b.getLast? = some c₂) (hne : c₁ ≠ c₂) :
    a ≠ b := by
  intro h
  subst h
  rw [ha] at hb
  exact hne (Option.some.inj hb)

/-- A list followed by a suffix with a known last character. -/
lemma getLast?_append_right (l m : Name) {c : Char}
    (h : m.getLast? = some c) : (l ++ m).getLast? = some c := by
  rw [List.getLast?_append, h]
  rfl

/-- `ytarchive` artifact names end in `v`. -/
lemma ytarchiveFileName_getLast? (url ts : Name) :
    (ytarchiveFileName url ts).getLast? = some 'v' := by
  have h : ytarchiveFileName url ts
      = (safe_name url ++ '_' :: ts) ++ ".mkv".data := by
    unfold ytarchiveFileName
    rw [← List.cons_append, ← List.append_assoc]
  rw [h]
  exact getLast?_append_right _ _ rfl

/-- `yt-dlp` artifact names end in `4`. -/
lemma ytdlpFileName_getLast? (url ts : Name) :
    (ytdlpFileName url ts).getLast? = some '4' := by
  have h : ytdlpFileName url ts
      = (safe_name url ++ '_' :: ts) ++ ".mp4".data := by
    unfold ytdlpFileName
    rw [← List.cons_append, ← List.append_assoc]
  rw [h]
  exact getLast?_append_right _ _ rfl

/-- Success status filenames end in `n`. -/
lemma statusSuccessName_getLast? (ts : Name) :
    (statusSuccessName ts).getLast? = some 'n' := by
  have h : statusSuccessName ts = ("status_".data ++ ts) ++ ".json".data := by
    unfold statusSuccessName
    rw [← List.append_assoc]
  rw [h]
  exact getLast?_append_right _ _ rfl

/-- Failure status filenames end in `n`. -/
lemma statusFailName_getLast? (ts : Name) :
    (statusFailName ts).getLast? = some 'n' := by
  have h : statusFailName ts = ("status_fail_".data ++ ts) ++ ".json".data := by
    unfold statusFailName
    rw [← List.append_assoc]
  rw [h]
  exact getLast?_append_right _ _ rfl

/-! ## Artifact fate after upload (claim C1) -/

/-- The post-capture pipeline: on the success path the artifact is
removed (deleted, then only ever further removed by the sweep, and the
status write adds a different name); on the failure path it is written
and never removed. -/
lemma pipeline_artifact_fate (art : Name) (mt : Nat) (sTs : Name) (sM : Nat)
    (keep_n : Nat) (d : Dir) (hfresh : art ∉ d.map FsFile.name)
    (hne_s : art ≠ statusSuccessName sTs) :
    art ∉ ((writeFile (statusSuccessName sTs) sM
        (cleanup_keep_last
          ((rclone_delete_local art (writeFile art mt d)).1) keep_n).1).map
          FsFile.name) ∧
      art ∈ ((writeFile (statusFailName sTs) sM (writeFile art mt d)).map
        FsFile.name) := by
  have hwf : writeFile art mt d = d ++ [⟨art, mt, false⟩] :=
    writeFile_fresh art mt d hfresh
  constructor
  · have hgone :
        art ∉ ((rclone_delete_local art (writeFile art mt d)).1.map FsFile.name) := by
      apply rclone_delete_local_removes art _ ⟨art, mt, false⟩ _ rfl rfl
      rw [hwf]
      exact List.mem_append.mpr (Or.inr (List.mem_singleton.mpr rfl))
    have hgone3 :=
      not_mem_names_of_sublist (cleanup_keep_last_sublist _ keep_n) hgone
    intro hmem
    rcases (writeFile_names_mem _ _ _ _).mp hmem with h | h
    · exact hgone3 h
    · exact hne_s h
  · exact (writeFile_names_mem _ _ _ _).mpr (Or.inl (writeFile_mem_self art mt d))

/-- Claim C1: for a job that captured an artifact, if the upload
succeeds the local artifact file no longer exists afterwards, and if
the upload fails after exhausting all retries the local artifact file
still exists afterwards (retained, not deleted). -/
theorem upload_outcome_decides_artifact_fate (url : Name) (e : JobEnv)
    (keep_n : Nat) (d : Dir) (art : Name)
    (hart : capturedName url e = some art)
    (hfresh : art ∉ d.map FsFile.name) :
    ((rclone_copy_with_retry e.uploadFailures).succeeded = true →
        art ∉ (do_one url e keep_n d).dir.map FsFile.name) ∧
      ((rclone_copy_with_retry e.uploadFailures).succeeded = false →
        art ∈ (do_one url e keep_n d).dir.map FsFile.name) := by
  cases hp : e.primary with
  | ok =>
    have ha : ytarchiveFileName url e.primaryTs = art := by
      simp only [capturedName, hp] at hart
      exact Option.some.inj hart
    subst ha
    have hne_s : ytarchiveFileName url e.primaryTs ≠ statusSuccessName e.statusTs :=
      name_ne_of_getLast? (ytarchiveFileName_getLast? _ _)
        (statusSuccessName_getLast? _) (by decide)
    constructor
    · intro hsucc
      simp only [do_one, recordPhase, hp]
      rw [if_pos hsucc]
      exact (pipeline_artifact_fate _ _ _ _ keep_n d hfresh hne_s).1
    · intro hfail
      simp only [do_one, recordPhase, hp]
      rw [if_neg (by simp [hfail])]
      exact (pipeline_artifact_fate _ e.primaryMtime e.statusTs e.statusMtime
        keep_n d hfresh hne_s).2
  | err er =>
    cases hf : e.fallback with
    | ok =>
      have ha : ytdlpFileName url e.fallbackTs = art := by
        simp only [capturedName, hp, hf] at hart
        exact Option.some.inj hart
      subst ha
      have hne_s : ytdlpFileName url e.fallbackTs ≠ statusSuccessName e.statusTs :=
        name_ne_of_getLast? (ytdlpFileName_getLast? _ _)
          (statusSuccessName_getLast? _) (by decide)
      constructor
      · intro hsucc
        simp only [do_one, recordPhase, hp, hf]
        rw [if_pos hsucc]
        exact (pipeline_artifact_fate _ _ _ _ keep_n d hfresh hne_s).1
      · intro hfail
        simp only [do_one, recordPhase, hp, hf]
        rw [if_neg (by simp [hfail])]
        exact (pipeline_artifact_fate _ e.fallbackMtime e.statusTs e.statusMtime
          keep_n d hfresh hne_s).2
    | err e2 =>
      simp [capturedName, hp, hf] at hart

/-- Witness for C1 on a concrete successful job over an empty
directory. -/
theorem upload_outcome_decides_artifact_fate_witness :
    capturedName "https://a".data exEnvOk
        = some (ytarchiveFileName "https://a".data "20240101_110000".data) ∧
      ytarchiveFileName "https://a".data "20240101_110000".data
          ∉ ([] : Dir).map FsFile.name ∧
      (((rclone_copy_with_retry exEnvOk.uploadFailures).succeeded = true →
          ytarchiveFileName "https://a".data "20240101_110000".data
            ∉ (do_one "https://a".data exEnvOk 5 []).dir.map FsFile.name) ∧
        ((rclone_copy_with_retry exEnvOk.uploadFailures).succeeded = false →
          ytarchiveFileName "https://a".data "20240101_110000".data
            ∈ (do_one "https://a".data exEnvOk 5 []).dir.map FsFile.name)) :=
  ⟨by decide, by decide,
    upload_outcome_decides_artifact_fate "https://a".data exEnvOk 5 [] _
      (by decide) (by decide)⟩

/-! ## One status record per completed job (claim C4, amended) -/

/-- In a duplicate-free name listing, a listed name is counted once. -/
lemma count_names_eq_one {l : List Name} {a : Name} (hnd : l.Nodup)
    (ha : a ∈ l) : l.count a = 1 := by
  induction l with
  | nil => cases ha
  | cons b l ih =>
    rw [List.count_cons]
    rcases List.mem_cons.mp ha with rfl | hmem
    · have h0 : l.count a = 0 :=
        List.count_eq_zero.mpr (List.nodup_cons.mp hnd).1
      simp [h0]
    · have hne : a ≠ b := fun he => (List.nodup_cons.mp hnd).1 (he ▸ hmem)
      rw [ih (List.nodup_cons.mp hnd).2 hmem]
      simp [Ne.symm hne]

/-- Writing the status file of a job into a duplicate-free listing
leaves exactly one entry of that name. -/
lemma count_writeFile_self (n : Name) (m : Nat) (d : Dir)
    (hnd : (d.map FsFile.name).Nodup) :
    ((writeFile n m d).map FsFile.name).count n = 1 :=
  count_names_eq_one (writeFile_names_nodup n m d hnd)
    (writeFile_mem_self n m d)

/-- Claim C4, amended: every `do_one` call that runs to completion
writes exactly one status record — but its filename derives from the
completion timestamp only, not from the source identifier, so records
are per-timestamp, not per-source (see the counterexample where two
same-second jobs share one file). -/
theorem do_one_writes_exactly_one_status (url : Name) (e : JobEnv)
    (keep_n : Nat) (d : Dir) (hnd : (d.map FsFile.name).Nodup) :
    ((do_one url e keep_n d).dir.map FsFile.name).count (jobStatusName url e)
      = 1 := by
  cases hp : e.primary with
  | ok =>
    by_cases hu : (rclone_copy_with_retry e.uploadFailures).succeeded = true
    · simp only [do_one, recordPhase, hp]
      rw [if_pos hu]
      simp only [jobStatusName, capturedName, hp]
      rw [if_pos hu]
      exact count_writeFile_self _ _ _
        (names_nodup_of_sublist (cleanup_keep_last_sublist _ _)
          (names_nodup_of_sublist (rclone_delete_local_sublist _ _)
            (writeFile_names_nodup _ _ _ hnd)))
    · simp only [do_one, recordPhase, hp]
      rw [if_neg (by simpa using hu)]
      simp only [jobStatusName, capturedName, hp]
      rw [if_neg (by simpa using hu)]
      exact count_writeFile_self _ _ _ (writeFile_names_nodup _ _ _ hnd)
  | err er =>
    cases hf : e.fallback with
    | ok =>
      by_cases hu : (rclone_copy_with_retry e.uploadFailures).succeeded = true
      · simp only [do_one, recordPhase, hp, hf]
        rw [if_pos hu]
        simp only [jobStatusName, capturedName, hp, hf]
        rw [if_pos hu]
        exact count_writeFile_self _ _ _
          (names_nodup_of_sublist (cleanup_keep_last_sublist _ _)
            (names_nodup_of_sublist (rclone_delete_local_sublist _ _)
              (writeFile_names_nodup _ _ _ hnd)))
      · simp only [do_one, recordPhase, hp, hf]
        rw [if_neg (by simpa using hu)]
        simp only [jobStatusName, capturedName, hp, hf]
        rw [if_neg (by simpa using hu)]
        exact count_writeFile_self _ _ _ (writeFile_names_nodup _ _ _ hnd)
    | err e2 =>
      simp only [do_one, recordPhase, hp, hf]
      simp only [jobStatusName, capturedName, hp, hf]
      exact count_writeFile_self _ _ _ hnd

/-- Witness for the amended C4 on a concrete job. -/
theorem do_one_writes_exactly_one_status_witness :
    (([] : Dir).map FsFile.name).Nodup ∧
      ((do_one "https://a".data exEnvOk 5 []).dir.map FsFile.name).count
        (jobStatusName "https://a".data exEnvOk) = 1 :=
  ⟨by decide, do_one_writes_exactly_one_status "https://a".data exEnvOk 5 []
    (by decide)⟩

/-! ## Fallback attempted exactly once (claim C5) -/

/-- Claim C5: when the primary capture strategy fails with
`ToolUnavailable` or `CaptureTimedOut`, the fallback strategy is
attempted exactly once; and if the fallback also fails, exhausting the
chain is a terminal capture failure for the job — `succeeded = false`,
a failure status record written, no artifact produced. -/
theorem fallback_attempted_exactly_once (url : Name) (e : JobEnv)
    (keep_n : Nat) (d : Dir)
    (h : e.primary = .err .toolUnavailable ∨ e.primary = .err .timedOut) :
    (do_one url e keep_n d).attempts = ["ytarchive".data, "yt-dlp".data] ∧
      (do_one url e keep_n d).attempts.count "yt-dlp".data = 1 ∧
      (∀ er, e.fallback = .err er →
        (do_one url e keep_n d).succeeded = false ∧
        (do_one url e keep_n d).artifact = none ∧
        statusFailName e.statusTs ∈
          (do_one url e keep_n d).dir.map FsFile.name) := by
  have hp : ∃ er₀, e.primary = .err er₀ := by
    rcases h with h | h
    · exact ⟨_, h⟩
    · exact ⟨_, h⟩
  obtain ⟨er₀, hp⟩ := hp
  cases hf : e.fallback with
  | ok =>
    refine ⟨?_, ?_, ?_⟩
    · by_cases hu : (rclone_copy_with_retry e.uploadFailures).succeeded = true
      · simp only [do_one, recordPhase, hp, hf]
        rw [if_pos hu]
      · simp only [do_one, recordPhase, hp, hf]
        rw [if_neg (by simpa using hu)]
    · by_cases hu : (rclone_copy_with_retry e.uploadFailures).succeeded = true
      · simp only [do_one, recordPhase, hp, hf]
        rw [if_pos hu]
        rfl
      · simp only [do_one, recordPhase, hp, hf]
        rw [if_neg (by simpa using hu)]
        rfl
    · intro er hfe
      exact CapRes.noConfusion hfe
  | err e2 =>
    refine ⟨?_, ?_, ?_⟩
    · simp [do_one, recordPhase, hp, hf]
    · simp only [do_one, recordPhase, hp, hf]
      rfl
    · intro er _
      refine ⟨?_, ?_, ?_⟩
      · simp [do_one, recordPhase, hp, hf]
      · simp [do_one, recordPhase, hp, hf]
      · simp only [do_one, recordPhase, hp, hf]
        exact writeFile_mem_self _ _ _

/-- Witness for C5 on a job whose primary tool is missing and whose
fallback tool crashes. -/
theorem fallback_attempted_exactly_once_witness :
    (exEnvCapFail.primary = .err .toolUnavailable ∨
        exEnvCapFail.primary = .err .timedOut) ∧
      ((do_one "https://a".data exEnvCapFail 5 []).attempts
          = ["ytarchive".data, "yt-dlp".data] ∧
        (do_one "https://a".data exEnvCapFail 5 []).attempts.count
          "yt-dlp".data = 1 ∧
        (∀ er, exEnvCapFail.fallback = .err er →
          (do_one "https://a".data exEnvCapFail 5 []).succeeded = false ∧
          (do_one "https://a".data exEnvCapFail 5 []).artifact = none ∧
          statusFailName exEnvCapFail.statusTs ∈
            (do_one "https://a".data exEnvCapFail 5 []).dir.map FsFile.name)) :=
  ⟨by decide, fallback_attempted_exactly_once "https://a".data exEnvCapFail 5 []
    (by decide)⟩

/-! ## Retention runs only on the success path (claim C7, amended) -/

/-- Claim C7, amended: the retention sweep is invoked only after a
successful upload — after a successful job over a deletable listing at
most `keep_n + 1` files remain (the sweep's bound plus the status
record written after it) — while after a failed job no sweep runs and
the directory never shrinks (the counterexample shows it exceeding
`KEEP_LAST_N`). -/
theorem retention_only_after_success (url : Name) (e : JobEnv) (keep_n : Nat)
    (d : Dir) (hnd : (d.map FsFile.name).Nodup)
    (hunl : ∀ f ∈ d, f.locked = false) :
    ((capturedName url e).isSome = true →
        (rclone_copy_with_retry e.uploadFailures).succeeded = true →
        (do_one url e keep_n d).dir.length ≤ keep_n + 1) ∧
      ((do_one url e keep_n d).succeeded = false →
        d.length ≤ (do_one url e keep_n d).dir.length) := by
  have bound : ∀ (a : Name) (mt : Nat),
      (writeFile (statusSuccessName e.statusTs) e.statusMtime
        (cleanup_keep_last ((rclone_delete_local a (writeFile a mt d)).1)
          keep_n).1).length ≤ keep_n + 1 := by
    intro a mt
    refine le_trans (writeFile_length_le _ _ _) ?_
    have h1 := writeFile_names_nodup a mt d hnd
    have h1u := writeFile_unlocked a mt d hunl
    have h2 := names_nodup_of_sublist (rclone_delete_local_sublist a _) h1
    have h2u : ∀ f ∈ (rclone_delete_local a (writeFile a mt d)).1,
        f.locked = false :=
      fun f hf => h1u f ((rclone_delete_local_sublist a _).subset hf)
    have h3 := cleanup_keep_last_length _ keep_n h2 h2u
    omega
  constructor
  · intro hcap hu
    cases hp : e.primary with
    | ok =>
      simp only [do_one, recordPhase, hp]
      rw [if_pos hu]
      exact bound _ _
    | err er =>
      cases hf : e.fallback with
      | ok =>
        simp only [do_one, recordPhase, hp, hf]
        rw [if_pos hu]
        exact bound _ _
      | err e2 =>
        rw [capturedName, hp, hf] at hcap
        exact Bool.noConfusion hcap
  · intro hfailed
    cases hp : e.primary with
    | ok =>
      by_cases hu : (rclone_copy_with_retry e.uploadFailures).succeeded = true
      · simp [do_one, recordPhase, hp, hu] at hfailed
      · simp only [do_one, recordPhase, hp]
        rw [if_neg (by simpa using hu)]
        exact le_trans (writeFile_length_ge _ _ _) (writeFile_length_ge _ _ _)
    | err er =>
      cases hf : e.fallback with
      | ok =>
        by_cases hu : (rclone_copy_with_retry e.uploadFailures).succeeded = true
        · simp [do_one, recordPhase, hp, hf, hu] at hfailed
        · simp only [do_one, recordPhase, hp, hf]
          rw [if_neg (by simpa using hu)]
          exact le_trans (writeFile_length_ge _ _ _) (writeFile_length_ge _ _ _)
      | err e2 =>
        simp only [do_one, recordPhase, hp, hf]
        exact writeFile_length_ge _ _ _

/-- Witness for the amended C7 on a concrete job over an empty
directory. -/
theorem retention_only_after_success_witness :
    (([] : Dir).map FsFile.name).Nodup ∧ (∀ f ∈ ([] : Dir), f.locked = false) ∧
      (((capturedName "https://a".data exEnvOk).isSome = true →
          (rclone_copy_with_retry exEnvOk.uploadFailures).succeeded = true →
          (do_one "https://a".data exEnvOk 5 []).dir.length ≤ 5 + 1) ∧
        ((do_one "https://a".data exEnvOk 5 []).succeeded = false →
          ([] : Dir).length ≤ (do_one "https://a".data exEnvOk 5 []).dir.length)) :=
  ⟨by decide, by decide,
    retention_only_after_success "https://a".data exEnvOk 5 [] (by decide)
      (by decide)⟩

end YtAuto
